import Mathlib

/-!
Verification of the teatime REST-client framework (src/lib.rs, src/gitlab/mod.rs,
src/interactive.rs, src/sensu/mod.rs) against its natural-language specification.

The development is a shallow embedding: Rust functions become Lean functions over
explicit state, the HTTP transport becomes a scripted list of responses (the script
models what the network returns for successive round trips, a log records the
requests that were dispatched, in order), `serde_json` becomes an executable JSON
parser, and the nom-based `parse_link_header` grammar is reproduced combinator by
combinator, including nom's `Done` / `Error` / `Incomplete` tri-state.

Conventions: machine strings are Lean `String`s (HTTP bodies are modelled as
UTF-8 text; the non-UTF-8 byte branch of `response_to_json` is therefore not
reachable in the model, and no claim concerns it).  Rust `usize` arithmetic that
can overflow is modelled with an explicit zero test standing for the checked
(debug) overflow semantics, which aborts.
-/

set_option autoImplicit false

namespace Teatime

/-! ## Generic character-level helpers (shared by the nom model and the JSON model) -/

/-- Whitespace recognised by nom's `ws!` separator (`sp`): space, tab, CR, LF. -/
def isWsChar (c : Char) : Bool :=
  c = ' ' || c = '\t' || c = '\r' || c = '\n'

/-- nom's `sp`: consume leading whitespace. -/
def sp (cs : List Char) : List Char := cs.dropWhile isWsChar

/-- `true` iff the list is empty or starts with a non-whitespace character. -/
def headOk : List Char → Bool
  | [] => true
  | c :: _ => !isWsChar c

/-- Boolean list-prefix test (`starts_with`). -/
def isPrefixB : List Char → List Char → Bool
  | [], _ => true
  | _ :: _, [] => false
  | p :: ps, c :: cs => p == c && isPrefixB ps cs

/-- Decidable "the pattern occurs as a contiguous subsequence". -/
def containsSeq (pat : List Char) : List Char → Bool
  | [] => isPrefixB pat []
  | c :: cs => isPrefixB pat (c :: cs) || containsSeq pat cs

/-- Result of a nom parser: `done rest value`, a recoverable `error`, or
`incomplete` (nom's `Incomplete`, produced when more input could have helped). -/
inductive PRes (α : Type) where
  | done (rest : List Char) (val : α)
  | error
  | incomplete
deriving DecidableEq, Repr

/-- nom's `tag!`: match a literal; a proper prefix of the tag at end of input is
`Incomplete`, any other mismatch is `Error`. -/
def tagP (pat : List Char) (cs : List Char) : PRes Unit :=
  if isPrefixB pat cs then .done (cs.drop pat.length) ()
  else if isPrefixB cs pat then .incomplete
  else .error

/-- nom's `take_until!`: consume up to (not including) the first occurrence of
`pat`; if `pat` never occurs the parser is `Incomplete`. -/
def takeUntil (pat : List Char) : List Char → PRes (List Char)
  | [] => if isPrefixB pat [] then .done [] [] else .incomplete
  | c :: cs =>
    if isPrefixB pat (c :: cs) then .done (c :: cs) []
    else
      match takeUntil pat cs with
      | .done rest t => .done rest (c :: t)
      | .error => .error
      | .incomplete => .incomplete

/-- `HashMap::insert`: replace the binding of `k` if present, else append. -/
def insertAssoc : List (String × String) → String → String → List (String × String)
  | [], k, v => [(k, v)]
  | (k', v') :: t, k, v => if k' = k then (k, v) :: t else (k', v') :: insertAssoc t k v

/-- `HashMap::get` / `HashMap::remove` (the looked-up value). -/
def lookupAssoc : List (String × String) → String → Option String
  | [], _ => none
  | (k', v) :: t, k => if k' = k then some v else lookupAssoc t k

/-! ## JSON values (`serde_json::Value`)

`Value` is mutually inductive with its element and member sequences so that all
recursion below is plainly structural.  Numbers keep their raw lexeme: no claim
interprets numeric values, only the shape of the grammar matters.  Objects model
`serde_json`'s map: inserting an existing key overwrites it (later duplicate keys
in a JSON text win), and `Value::get` looks the key up. -/

mutual
inductive Value where
  | null
  | bool (b : Bool)
  | num (lexeme : String)
  | str (s : String)
  | arr (elems : ValueList)
  | obj (members : MemberList)

inductive ValueList where
  | nil
  | cons (v : Value) (t : ValueList)

inductive MemberList where
  | nil
  | cons (k : String) (v : Value) (t : MemberList)
end

/-- Build a `ValueList` from a Lean list (used only to state results). -/
def ValueList.ofList : List Value → ValueList
  | [] => .nil
  | v :: t => .cons v (ValueList.ofList t)

/-- `serde_json::Map::insert`: replace the binding of `k` if present, else append. -/
def MemberList.insert : MemberList → String → Value → MemberList
  | .nil, k, v => .cons k v .nil
  | .cons k' v' t, k, v =>
    if k' = k then .cons k v t else .cons k' v' (MemberList.insert t k v)

/-- Map lookup backing `serde_json::Value::get`. -/
def MemberList.find : MemberList → String → Option Value
  | .nil, _ => none
  | .cons k' v t, k => if k' = k then some v else MemberList.find t k

/-- `serde_json::Value::get(key)`: `Some` only on objects containing the key. -/
def Value.get (v : Value) (key : String) : Option Value :=
  match v with
  | .obj ms => ms.find key
  | _ => none

/-- `serde_json::Value::as_str`. -/
def Value.asStr : Value → Option String
  | .str s => some s
  | _ => none

/-- JSON string escaping for the serializer (the escapes `serde_json` emits for
control-free text; claims never inspect serialized bodies). -/
def escapeChar (c : Char) : List Char :=
  if c = '\x22' then ['\\', '\x22']
  else if c = '\\' then ['\\', '\\']
  else if c = '\n' then ['\\', 'n']
  else if c = '\t' then ['\\', 't']
  else if c = '\r' then ['\\', 'r']
  else [c]

def escapeString (s : String) : String :=
  ⟨(s.data.map escapeChar).flatten⟩

mutual
/-- `serde_json` compact serialization (`Value::to_string`), used when a request
body is built from `Params`. -/
def renderValue : Value → String
  | .null => "null"
  | .bool true => "true"
  | .bool false => "false"
  | .num lexeme => lexeme
  | .str s => "\x22" ++ escapeString s ++ "\x22"
  | .arr es => "[" ++ renderElems es ++ "]"
  | .obj ms => "\x7b" ++ renderMembers ms ++ "\x7d"

def renderElems : ValueList → String
  | .nil => ""
  | .cons v .nil => renderValue v
  | .cons v (.cons w t) => renderValue v ++ "," ++ renderElems (.cons w t)

def renderMembers : MemberList → String
  | .nil => ""
  | .cons k v .nil => "\x22" ++ escapeString k ++ "\x22:" ++ renderValue v
  | .cons k v (.cons k' v' t) =>
      "\x22" ++ escapeString k ++ "\x22:" ++ renderValue v ++ "," ++
        renderMembers (.cons k' v' t)
end

/-! ## JSON parsing (`serde_json::from_slice`)

A recursive-descent parser for the JSON grammar as `serde_json` accepts it:
leading/trailing whitespace allowed, full input must be consumed, an empty
document is an error ("EOF while parsing a value").  The `fuel` argument models
`serde_json`'s bounded recursion depth; it is always called with more fuel than
the input length, so the `0` branch is unreachable on real inputs.  Divergence
note: `\uXXXX` escapes for surrogate pairs are rejected here while `serde_json`
combines well-formed pairs; no claim involves such escapes. -/

/-- JSON whitespace (same character set as `isWsChar`). -/
def jws (cs : List Char) : List Char := cs.dropWhile isWsChar

/-- Value of one hexadecimal digit (the escape grammar accepts both cases). -/
def hexVal (c : Char) : Option Nat :=
  let n := c.toNat
  if 48 ≤ n && n ≤ 57 then some (n - 48)        -- 0-9
  else if 97 ≤ n && n ≤ 102 then some (n - 87)  -- a-f
  else if 65 ≤ n && n ≤ 70 then some (n - 55)   -- A-F
  else none

/-- Parse the body of a JSON string literal (after the opening quote). -/
def pStringChars : List Char → Except String (List Char × List Char)
  | [] => .error "EOF while parsing a string"
  | '\x22' :: rest => .ok ([], rest)
  | '\\' :: esc =>
    match esc with
    | [] => .error "EOF while parsing a string"
    | e :: rest =>
      if e = 'u' then
        match rest with
        | h1 :: h2 :: h3 :: h4 :: rest' =>
          match hexVal h1, hexVal h2, hexVal h3, hexVal h4 with
          | some a, some b, some c, some d =>
            let n := ((a * 16 + b) * 16 + c) * 16 + d
            if 0xD800 ≤ n && n ≤ 0xDFFF then
              .error "lone leading surrogate in hex escape"
            else
              match pStringChars rest' with
              | .ok (s, rem) => .ok (Char.ofNat n :: s, rem)
              | .error e' => .error e'
          | _, _, _, _ => .error "invalid escape"
        | _ => .error "EOF while parsing a string"
      else
        let decoded : Option Char :=
          if e = '\x22' then some '\x22'
          else if e = '\\' then some '\\'
          else if e = '/' then some '/'
          else if e = 'b' then some (Char.ofNat 8)
          else if e = 'f' then some (Char.ofNat 12)
          else if e = 'n' then some '\n'
          else if e = 'r' then some '\r'
          else if e = 't' then some '\t'
          else none
        match decoded with
        | none => .error "invalid escape"
        | some c =>
          match pStringChars rest with
          | .ok (s, rem) => .ok (c :: s, rem)
          | .error e' => .error e'
  | c :: rest =>
    if c.toNat < 0x20 then .error "control character in string"
    else
      match pStringChars rest with
      | .ok (s, rem) => .ok (c :: s, rem)
      | .error e => .error e

/-- Digit run for the number lexer. -/
def takeDigits (cs : List Char) : List Char × List Char :=
  (cs.takeWhile Char.isDigit, cs.dropWhile Char.isDigit)

/-- Lex a JSON number (JSON grammar: no leading zeros, optional fraction and
exponent); returns the raw lexeme. -/
def pNumber (cs : List Char) : Except String (Value × List Char) :=
  let (negPart, cs1) :=
    match cs with
    | '-' :: rest => (['-'], rest)
    | _ => (([] : List Char), cs)
  match cs1 with
  | '0' :: rest => pNumberFrac (negPart ++ ['0']) rest
  | c :: _ =>
    if c.isDigit then
      let (ds, rest) := takeDigits cs1
      pNumberFrac (negPart ++ ds) rest
    else .error "invalid number"
  | [] => .error "EOF while parsing a value"
where
  pNumberFrac (intPart : List Char) (cs : List Char) : Except String (Value × List Char) :=
    let (fracPart, cs2) : List Char × List Char :=
      match cs with
      | '.' :: rest =>
        let (ds, rest') := takeDigits rest
        if ds = [] then ([], '.' :: rest) else ('.' :: ds, rest')
      | _ => ([], cs)
    match cs, fracPart with
    | '.' :: _, [] => .error "invalid number"
    | _, _ =>
      match cs2 with
      | e :: rest =>
        if e = 'e' || e = 'E' then
          let (sign, rest1) :=
            match rest with
            | '+' :: r => (['+'], r)
            | '-' :: r => (['-'], r)
            | _ => (([] : List Char), rest)
          let (ds, rest2) := takeDigits rest1
          if ds = [] then .error "invalid number"
          else .ok (.num ⟨intPart ++ fracPart ++ e :: sign ++ ds⟩, rest2)
        else .ok (.num ⟨intPart ++ fracPart⟩, cs2)
      | [] => .ok (.num ⟨intPart ++ fracPart⟩, cs2)

mutual
/-- Parse one JSON value. -/
def pValue : Nat → List Char → Except String (Value × List Char)
  | 0, _ => .error "recursion limit exceeded"
  | _ + 1, [] => .error "EOF while parsing a value"
  | fuel + 1, c :: rest =>
    if c = 'n' then
      match tagP ("ull".data) rest with
      | .done rest' _ => .ok (.null, rest')
      | _ => .error "expected ident"
    else if c = 't' then
      match tagP ("rue".data) rest with
      | .done rest' _ => .ok (.bool true, rest')
      | _ => .error "expected ident"
    else if c = 'f' then
      match tagP ("alse".data) rest with
      | .done rest' _ => .ok (.bool false, rest')
      | _ => .error "expected ident"
    else if c = '\x22' then
      match pStringChars rest with
      | .ok (s, rem) => .ok (.str ⟨s⟩, rem)
      | .error e => .error e
    else if c = '[' then
      match jws rest with
      | ']' :: rest' => .ok (.arr .nil, rest')
      | cs => pElems fuel cs
    else if c = '\x7b' then
      match jws rest with
      | '\x7d' :: rest' => .ok (.obj .nil, rest')
      | cs => pMembers fuel cs .nil
    else if c = '-' || c.isDigit then
      pNumber (c :: rest)
    else
      .error "expected value"

/-- Parse `[`-delimited elements (after any leading whitespace). -/
def pElems : Nat → List Char → Except String (Value × List Char)
  | 0, _ => .error "recursion limit exceeded"
  | fuel + 1, cs =>
    match pValue fuel cs with
    | .error e => .error e
    | .ok (v, rest) =>
      match jws rest with
      | ',' :: rest' =>
        match pElems fuel (jws rest') with
        | .ok (.arr t, rem) => .ok (.arr (.cons v t), rem)
        | .ok _ => .error "expected array"
        | .error e => .error e
      | ']' :: rest' => .ok (.arr (.cons v .nil), rest')
      | _ => .error "expected comma or bracket"

/-- Parse `\x7b`-delimited members into a map (later duplicate keys overwrite). -/
def pMembers : Nat → List Char → MemberList → Except String (Value × List Char)
  | 0, _, _ => .error "recursion limit exceeded"
  | fuel + 1, cs, acc =>
    match cs with
    | '\x22' :: rest =>
      match pStringChars rest with
      | .error e => .error e
      | .ok (k, rest1) =>
        match jws rest1 with
        | ':' :: rest2 =>
          match pValue fuel (jws rest2) with
          | .error e => .error e
          | .ok (v, rest3) =>
            let acc' := acc.insert ⟨k⟩ v
            match jws rest3 with
            | ',' :: rest4 => pMembers fuel (jws rest4) acc'
            | '\x7d' :: rest4 => .ok (.obj acc', rest4)
            | _ => .error "expected comma or brace"
        | _ => .error "expected colon"
    | _ => .error "key must be a string"
end

/-- `serde_json::from_slice` on a UTF-8 body: whitespace-framed single value,
whole input consumed.  An empty (or all-whitespace) body is an error. -/
def parseJson (s : String) : Except String Value :=
  let cs := jws s.data
  match pValue (cs.length + 1) cs with
  | .error e => .error e
  | .ok (v, rest) =>
    if jws rest = [] then .ok v else .error "trailing characters"

/-! ## URIs (`hyper::Uri`)

A `Uri` keeps its textual form (`as_ref` / `to_string` in hyper).  `scheme`,
`authority` and `is_absolute` are derived views, as in hyper 0.11 where the type
stores the string plus component offsets.  `parseUri` models
`str::parse::<Uri>`: hyper's full syntactic validation is not reproduced, only
the emptiness check; every URI string appearing in the claims is one hyper
accepts, and no claim depends on hyper rejecting a malformed URI. -/

structure Uri where
  raw : String
deriving DecidableEq, Repr

def isSchemeChar (c : Char) : Bool :=
  c.isAlpha || c.isDigit || c = '+' || c = '-' || c = '.'

/-- Split `scheme "://" rest`, validating the scheme's shape. -/
def splitScheme (s : String) : Option (String × String) :=
  match takeUntil (":" ++ "//").data s.data with
  | .done rest taken =>
    if taken ≠ [] && taken.all isSchemeChar && (taken.headD 'a').isAlpha then
      some (⟨taken⟩, ⟨rest.drop 3⟩)
    else none
  | _ => none

/-- hyper `Uri::scheme`. -/
def Uri.scheme (u : Uri) : Option String := (splitScheme u.raw).map Prod.fst

/-- hyper `Uri::authority`: the part after `"://"` up to the first `/`, `?` or `#`. -/
def Uri.authority (u : Uri) : Option String :=
  (splitScheme u.raw).map fun p => ⟨p.2.data.takeWhile fun c => c ≠ '/' && c ≠ '?' && c ≠ '#'⟩

/-- hyper `Uri::is_absolute`: the URI carries a scheme. -/
def Uri.isAbsolute (u : Uri) : Bool := (splitScheme u.raw).isSome

/-- The framework's error type: `pub struct ClientError(String)`.  The source has
a single string-typed error; the spec's error kinds (TransportError, AuthError,
DecodeError, ...) exist only as distinct message texts. -/
structure ClientError where
  msg : String
deriving DecidableEq, Repr

def ClientError.new (s : String) : ClientError := ⟨s⟩

/-- `str::parse::<Uri>` (see the module comment on `Uri`). -/
def parseUri (s : String) : Except ClientError Uri :=
  if s = "" then .error (ClientError.new "empty Uri") else .ok ⟨s⟩

/-! ## HTTP layer -/

inductive Method where
  | get | post | put | delete
deriving DecidableEq, Repr

/-- An HTTP response: header (name, value) pairs and the body text.  The status
code is omitted: the framework never reads it. -/
structure Response where
  headers : List (String × String)
  body : String
deriving DecidableEq, Repr

/-- `hyper::Request` as the framework builds it. -/
structure HttpRequest where
  method : Method
  uri : Uri
  headers : List (String × String)
  body : Option String
deriving DecidableEq, Repr

/-- `SimpleHttpClient` together with its environment.  `request` and
`responseFut` are the struct's two `Option` fields (`responseFut` holds the
request captured by the in-flight `FutureResponse`).  The network side
(hyper client + Tokio core) is modelled by `script` — the responses the server
will produce for successive round trips, an exhausted script being a transport
failure — and `log`, the observable trace of round trips performed, in order. -/
structure SimpleHttpClient where
  request : Option HttpRequest
  responseFut : Option HttpRequest
  script : List Response
  log : List (Method × String)
deriving DecidableEq, Repr

/-- `HttpClient::request_init` (always `Ok` in the source). -/
def SimpleHttpClient.requestInit (c : SimpleHttpClient) (m : Method) (u : Uri) :
    Except ClientError Unit × SimpleHttpClient :=
  (.ok (), { c with request := some ⟨m, u, [], none⟩ })

/-- `HttpClient::make_request`: take the pending request and start the round trip. -/
def SimpleHttpClient.makeRequest (c : SimpleHttpClient) :
    Except ClientError Unit × SimpleHttpClient :=
  match c.request with
  | some req => (.ok (), { c with request := none, responseFut := some req })
  | none => (.error (ClientError.new "Request not initialized, cannot make request"), c)

/-- `HttpClient::response`: run the pending future.  Consumes the next scripted
response; an exhausted script models a network/TLS failure surfaced as a hyper
error (its exact message is environment-dependent and modelled by a constant). -/
def SimpleHttpClient.response (c : SimpleHttpClient) :
    Except ClientError Response × SimpleHttpClient :=
  match c.responseFut with
  | none => (.error (ClientError.new "No request sent, get response"), c)
  | some req =>
    match c.script with
    | [] =>
      (.error (ClientError.new "transport round trip failed"),
       { c with responseFut := none, log := c.log ++ [(req.method, req.uri.raw)] })
    | r :: rest =>
      (.ok r,
       { c with responseFut := none, script := rest,
                log := c.log ++ [(req.method, req.uri.raw)] })

/-- `HttpClient::response_to_body`: reassemble the body chunk.  Body transfer
cannot fail in the model (bodies are already complete strings). -/
def response_to_body (r : Response) : String := r.body

/-! ## Credentials and the Gitlab client -/

/-- `ApiCredentials` (src/lib.rs). -/
inductive ApiCredentials where
  | NoAuth
  | ApiKey (key : String)
  | UserPass (user : String) (pass : String)
  | UserPassTwoFactor (user : String) (pass : String) (code : String)
deriving DecidableEq, Repr

/-- Gitlab token kinds (src/gitlab/mod.rs `TokenType`). -/
inductive TokenType where
  | Oauth (t : String)
  | PersonalAccess (t : String)
deriving DecidableEq, Repr

/-- `GitlabClient`: base URI, optional session token, owned HTTP client. -/
structure GitlabClient where
  baseUri : Uri
  token : Option TokenType
  client : SimpleHttpClient
deriving DecidableEq, Repr

/-- Rust `str::ends_with(char)`. -/
def endsWith1 (s : String) (c : Char) : Bool := s.data.getLast? = some c

/-- Target resolution performed inside `ApiClient::request` (src/lib.rs
319-334): an absolute target is used unchanged; a relative one loses at most
one leading `/`, the base gains a trailing `/` if it lacks one, and the
concatenation is re-parsed.  (The `[..1]` byte slice of the source presupposes
the hyper invariant that a `Uri`'s text is nonempty; the head-character test
agrees with it on every parseable URI.) -/
def resolveTarget (base : Uri) (uri : Uri) : Except ClientError Uri :=
  if uri.isAbsolute then .ok uri
  else
    let noLeadingSlash : String :=
      match uri.raw.data with
      | '/' :: rest => ⟨rest⟩
      | _ => uri.raw
    let baseStr := if endsWith1 base.raw '/' then base.raw else base.raw ++ "/"
    parseUri (baseStr ++ noLeadingSlash)

/-- `ApiClient::set_request_attributes` for the Gitlab client (modelled from
`GitlabClient::request_future`, the snapshot's request decorator: the JSON
params are serialized into the body with a JSON content type). -/
def GitlabClient.setRequestAttributes (st : GitlabClient) (params : Option Value) :
    Except ClientError Unit × GitlabClient :=
  match st.client.request with
  | none =>
    (.error (ClientError.new "Request not initialized, cannot set parameters"), st)
  | some req =>
    match params with
    | none => (.ok (), st)
    | some p =>
      let req' : HttpRequest :=
        { req with body := some (renderValue p),
                   headers := req.headers ++ [("Content-Type", "application/json")] }
      (.ok (), { st with client := { st.client with request := some req' } })

/-- `ApiClient::set_api_headers` for the Gitlab client (modelled from
`GitlabClient::request_future`): an OAuth token becomes a bearer Authorization
header, a personal access token the Private-Token header. -/
def GitlabClient.setApiHeaders (st : GitlabClient) :
    Except ClientError Unit × GitlabClient :=
  match st.client.request with
  | none => (.error (ClientError.new "Request not initialized, cannot set header"), st)
  | some req =>
    let req' :=
      match st.token with
      | some (.Oauth t) => { req with headers := req.headers ++ [("Authorization", "Bearer " ++ t)] }
      | some (.PersonalAccess t) => { req with headers := req.headers ++ [("Private-Token", t)] }
      | none => req
    (.ok (), { st with client := { st.client with request := some req' } })

/-- `ApiClient::request` (src/lib.rs 319-345) instantiated at the Gitlab client:
resolve the target, initialise, decorate with params and API headers, dispatch,
and collect the response. -/
def ApiClient.request (st : GitlabClient) (method : Method) (uri : Uri)
    (params : Option Value) : Except ClientError Response × GitlabClient :=
  match resolveTarget st.baseUri uri with
  | .error e => (.error e, st)
  | .ok fullUri =>
    let (_, c1) := st.client.requestInit method fullUri
    let st1 := { st with client := c1 }
    match st1.setRequestAttributes params with
    | (.error e, st2) => (.error e, st2)
    | (.ok _, st2) =>
      match st2.setApiHeaders with
      | (.error e, st3) => (.error e, st3)
      | (.ok _, st3) =>
        match st3.client.makeRequest with
        | (.error e, c4) => (.error e, { st3 with client := c4 })
        | (.ok _, c4) =>
          let (r, c5) := c4.response
          (r, { st3 with client := c5 })

/-! ## Link header parsing (src/gitlab/mod.rs 11-29, 69-98)

The nom grammar, reproduced step by step.  `ws!` wraps the `do_parse!` so that
`sp` runs before every token; `opt!` and iteration propagate `Incomplete`;
`fold_many1!` demands one entry, then `fold_many0!` stops cleanly on an empty
rest or a recoverable error (leftover input is discarded by `to_result`). -/

/-- Sequencing of nom parsers inside a `do_parse!`: `Error` and `Incomplete`
short-circuit, `Done` feeds the rest of the input to the continuation. -/
def pbind {α β : Type} (x : PRes α) (f : List Char → α → PRes β) : PRes β :=
  match x with
  | .done rest v => f rest v
  | .error => .error
  | .incomplete => .incomplete

@[simp] theorem pbind_done {α β : Type} (r : List Char) (v : α)
    (f : List Char → α → PRes β) : pbind (.done r v) f = f r v := rfl

@[simp] theorem pbind_error {α β : Type} (f : List Char → α → PRes β) :
    pbind (.error : PRes α) f = .error := rfl

@[simp] theorem pbind_incomplete {α β : Type} (f : List Char → α → PRes β) :
    pbind (.incomplete : PRes α) f = .incomplete := rfl

/-- The entry body after comma handling:
`tag!("<") >> take_until!(">;") >> tag!(">;") >> tag!("rel=\x22") >>
take_until!("\x22") >> tag!("\x22")`, producing `(position, link)`;
the `ws!` wrapper runs `sp` before every token. -/
def entryBody (cs : List Char) : PRes (String × String) :=
  pbind (tagP ['<'] (sp cs)) fun cs1 _ =>
  pbind (takeUntil ['>', ';'] (sp cs1)) fun cs2 link =>
  pbind (tagP ['>', ';'] (sp cs2)) fun cs3 _ =>
  pbind (tagP ("rel=\x22".data) (sp cs3)) fun cs4 _ =>
  pbind (takeUntil ['\x22'] (sp cs4)) fun cs5 position =>
  pbind (tagP ['\x22'] (sp cs5)) fun cs6 _ =>
  .done cs6 (⟨position⟩, ⟨link⟩)

/-- One `ws!(do_parse!(opt!(tag!(",")) >> ...))` entry. -/
def linkEntry (cs : List Char) : PRes (String × String) :=
  let cs0 := sp cs
  match tagP [','] cs0 with
  | .done cs1 _ => entryBody cs1
  | .error => entryBody cs0
  | .incomplete => .incomplete

/-- nom `fold_many0!` over `linkEntry`, folding into the `HashMap` (duplicate
relation names overwrite).  Empty remaining input terminates before the parser
runs; a recoverable error terminates with the accumulator; `Incomplete`
propagates; a non-consuming success would be a `Many0` error.  The fuel is
always at least `cs.length + 1`, so the `0` branch is unreachable (a successful
entry always consumes input). -/
def foldEntries : Nat → List Char → List (String × String) → PRes (List (String × String))
  | 0, _, _ => .error
  | fuel + 1, cs, acc =>
    if cs = [] then .done [] acc
    else
      match linkEntry cs with
      | .error => .done cs acc
      | .incomplete => .incomplete
      | .done rest kv =>
        if rest.length = cs.length then .error
        else foldEntries fuel rest (insertAssoc acc kv.1 kv.2)

/-- `parse_link_header` (the `named!` nom parser): `fold_many1!` of entries. -/
def parse_link_header (s : String) : PRes (List (String × String)) :=
  match linkEntry s.data with
  | .error => .error
  | .incomplete => .incomplete
  | .done rest kv => foldEntries (rest.length + 1) rest (insertAssoc [] kv.1 kv.2)

/-- The pagination `Link` header (four optional relations). -/
structure Link where
  previous : Option String
  next : Option String
  first : Option String
  last : Option String
deriving DecidableEq, Repr

/-- `Header::parse_header` for `Link`: run the nom parser and pick out the four
known relations (unknown ones are dropped).  An `Error` from nom surfaces as a
header parse failure; `to_result` on nom's `Incomplete` panics in the source — a
behaviour outside every claim — and is mapped to a failure here. -/
def Link.parse_header (s : String) : Option Link :=
  match parse_link_header s with
  | .done _ hm =>
    some ⟨lookupAssoc hm "prev", lookupAssoc hm "next",
          lookupAssoc hm "first", lookupAssoc hm "last"⟩
  | _ => none

/-- `Headers::get::<Link>()`: hyper header names are case-insensitive, and
`Raw::one()` requires exactly one raw line for the header. -/
def getLinkHeader (hs : List (String × String)) : Option Link :=
  match hs.filter (fun h => h.1.data.map Char.toLower = "link".data) with
  | [h] => Link.parse_header h.2
  | _ => none

/-- `HasNextLink::next` on the parsed header, then
`JsonApiClient::next_page_uri` for the Gitlab client: the `next` relation's URL,
if it parses as a URI (`parse::<Uri>().ok()`); the gitlab implementation never
returns an error. -/
def nextPageUri (resp : Response) : Option Uri :=
  match getLinkHeader resp.headers with
  | some l =>
    match l.next with
    | some n => (parseUri n).toOption
    | none => none
  | none => none

/-! ## JSON API client (src/lib.rs 355-398) -/

/-- `JsonApiClient::response_to_json`: reassemble the body and parse it; on a
parse failure the raw body is attached to the error (bodies are modelled as
UTF-8 text, so the non-UTF-8 branch of the source cannot fire here). -/
def response_to_json (r : Response) : Except ClientError Value :=
  let chunk := response_to_body r
  match parseJson chunk with
  | .ok v => .ok v
  | .error _ => .error (ClientError.new ("Failed to parse JSON: " ++ chunk))

/-- `JsonApiClient::request_json`. -/
def request_json (st : GitlabClient) (method : Method) (uri : Uri)
    (params : Option Value) : Except ClientError Value × GitlabClient :=
  match ApiClient.request st method uri params with
  | (.error e, st') => (.error e, st')
  | (.ok resp, st') => (response_to_json resp, st')

/-- The `while let Some(page) = try!(self.next_page_uri(&response))` loop of
`JsonApiClient::autopagination`: decode the held page, fetch the continuation,
repeat; on exit decode the final body with `serde_json::from_slice(...)?`
(whose error converts via `description()`, modelled by the parser's message).
The fuel starts above the script length and every iteration consumes one
scripted response, so the `0` branch is unreachable. -/
def autopagLoop (method : Method) (params : Option Value) :
    Nat → GitlabClient → Response → List Value →
    Except ClientError (List Value) × GitlabClient
  | 0, st, _, _ => (.error (ClientError.new "pagination fuel exhausted"), st)
  | fuel + 1, st, resp, acc =>
    match nextPageUri resp with
    | some page =>
      match response_to_json resp with
      | .error e => (.error e, st)
      | .ok json =>
        match ApiClient.request st method page params with
        | (.error e, st') => (.error e, st')
        | (.ok resp', st') => autopagLoop method params fuel st' resp' (acc ++ [json])
    | none =>
      let chunk := response_to_body resp
      match parseJson chunk with
      | .error e => (.error (ClientError.new e), st)
      | .ok json => (.ok (acc ++ [json]), st)

/-- `JsonApiClient::autopagination` (src/lib.rs 369-385). -/
def autopagination (st : GitlabClient) (method : Method) (target : Uri)
    (params : Option Value) : Except ClientError Value × GitlabClient :=
  match ApiClient.request st method target params with
  | (.error e, st') => (.error e, st')
  | (.ok resp, st') =>
    match autopagLoop method params (st'.client.script.length + 1) st' resp [] with
    | (.error e, st'') => (.error e, st'')
    | (.ok vec, st'') => (.ok (.arr (ValueList.ofList vec)), st'')

/-! ## Gitlab login (src/gitlab/mod.rs 140-175) -/

/-- The `auth` closure: POST a password grant to `scheme://authority/oauth/token`
and extract `access_token` from the JSON reply; a reply without that field is
the "Could not log in" error (the spec's AuthError), produced after decoding
succeeded. -/
def gitlabAuth (st : GitlabClient) (user pass : String) :
    Except ClientError (Option String) × GitlabClient :=
  match st.baseUri.scheme with
  | none => (.error (ClientError.new "Invalid base URI"), st)
  | some sch =>
    match st.baseUri.authority with
    | none => (.error (ClientError.new "Invalid base URI"), st)
    | some auth =>
      let hostUri := sch ++ "://" ++ auth
      let hostUri := if endsWith1 hostUri '/' then (⟨hostUri.data.dropLast⟩ : String) else hostUri
      match parseUri (hostUri ++ "/oauth/token") with
      | .error e => (.error e, st)
      | .ok uri =>
        let jsonMap : MemberList :=
          (((MemberList.nil.insert "grant_type" (.str "password")).insert
            "username" (.str user)).insert "password" (.str pass))
        match request_json st .post uri (some (.obj jsonMap)) with
        | (.error e, st') => (.error e, st')
        | (.ok json, st') =>
          match json.get "access_token" with
          | none =>
            (.error (ClientError.new "Could not log in with given username and password"),
             st')
          | some tv => (.ok tv.asStr, st')

/-- `ApiClient::login` for the Gitlab client.  `NoAuth` computes no token and
performs no round trip; `ApiKey` is a pure local assignment; the password modes
run `gitlabAuth` (an error there returns early via `try!`, leaving the stored
token untouched).  On every successful path the stored token is reassigned. -/
def GitlabClient.login (st : GitlabClient) (creds : ApiCredentials) :
    Except ClientError Unit × GitlabClient :=
  match creds with
  | .NoAuth => (.ok (), { st with token := none })
  | .ApiKey key => (.ok (), { st with token := some (.PersonalAccess key) })
  | .UserPass user pass =>
    match gitlabAuth st user pass with
    | (.error e, st') => (.error e, st')
    | (.ok t, st') => (.ok (), { st' with token := t.map .Oauth })
  | .UserPassTwoFactor user pass _ =>
    match gitlabAuth st user pass with
    | (.error e, st') => (.error e, st')
    | (.ok t, st') => (.ok (), { st' with token := t.map .Oauth })

/-! ## Sensu client login (src/sensu/mod.rs 71-73) -/

/-- The observable state of `SensuClient` relevant to `login`. -/
structure SensuClient where
  apiUrl : String
  request : Option (Method × String)
deriving DecidableEq, Repr

/-- `SensuClient::login` ignores the credentials entirely and returns `Ok(())`. -/
def SensuClient.login (st : SensuClient) (_creds : ApiCredentials) :
    Except ClientError Unit × SensuClient :=
  (.ok (), st)

/-! ## Interactive prompt (src/interactive.rs) -/

/-- What stdin produces for one `read_line` call: an I/O error, or the text read
(everything up to and including a newline, or up to EOF when `sawNewline` is
false; immediate EOF is `input "" false`). -/
inductive StdinLine where
  | ioError
  | input (s : String) (sawNewline : Bool)

/-- Outcome of `interactive_text`: the `io::Error` branch, a returned string, or
a panic (integer underflow under checked arithmetic, or `String::truncate` off a
char boundary). -/
inductive PromptResult where
  | ioErr
  | ok (s : String)
  | panicked
deriving DecidableEq, Repr

/-- `String::truncate(k)` by UTF-8 byte count: keep the longest prefix of whole
characters of at most `k` bytes when `k` lands on a character boundary; `none`
models the source's panic when it does not.  `k` at or beyond the total length
is a no-op. -/
def truncBytes : List Char → Nat → Option (List Char)
  | _, 0 => some []
  | [], _ => some []
  | c :: cs, k =>
    if c.utf8Size ≤ k then (truncBytes cs (k - c.utf8Size)).map (c :: ·)
    else none

/-- UTF-8 byte length of a character list (what `read_line` counts). -/
def utf8LenAux : List Char → Nat
  | [] => 0
  | c :: cs => c.utf8Size + utf8LenAux cs

/-- `interactive_text` (src/interactive.rs 4-14): prompt, `read_line`, then
`line.truncate(line_len - 1)`.  `read_line` returns the number of bytes read;
`line_len - 1` on `usize` underflows when nothing was read, which is the
checked-arithmetic panic. -/
def interactive_text (stdin : StdinLine) : PromptResult :=
  match stdin with
  | .ioError => .ioErr
  | .input s sawNewline =>
    let line := s ++ (if sawNewline then "\n" else "")
    let lineLen := utf8LenAux line.data
    if lineLen = 0 then .panicked
    else
      match truncBytes line.data (lineLen - 1) with
      | none => .panicked
      | some cs => .ok ⟨cs⟩

/-! ## General-purpose lemmas -/

theorem string_append_ne_empty_left (s t : String) (h : s ≠ "") : s ++ t ≠ "" := by
  intro heq
  apply h
  have hd : s.data ++ t.data = [] := by
    have := congrArg String.data heq
    simpa [String.data_append] using this
  have : s.data = [] := by
    rcases List.append_eq_nil.mp hd with ⟨h1, _⟩
    exact h1
  cases s
  simp_all

theorem frame_of_request (st : GitlabClient) (m : Method) (u : Uri) (p : Option Value) :
    (ApiClient.request st m u p).2.token = st.token ∧
    (ApiClient.request st m u p).2.baseUri = st.baseUri := by
  rcases st with ⟨b, tok, ⟨req, fut, script, log⟩⟩
  unfold ApiClient.request
  rcases hres : resolveTarget b u with e | fu
  · simp
  · simp only [SimpleHttpClient.requestInit]
    unfold GitlabClient.setRequestAttributes
    rcases p with _ | pv <;>
      unfold GitlabClient.setApiHeaders <;>
      rcases tok with _ | tk <;>
      [skip; rcases tk with t | t; skip; rcases tk with t | t] <;>
      simp only [SimpleHttpClient.makeRequest, SimpleHttpClient.response] <;>
      rcases script with _ | ⟨r, rest⟩ <;> simp

/-! ## Claim theorems -/

/-- C2 counterexample: an empty response body does **not** decode to an empty
JSON array — `response_to_json` fails with the "Failed to parse JSON" decode
error (body attached, here the empty string), because `serde_json::from_slice`
has no value to parse in an empty document. -/
theorem empty_body_is_decode_error :
    response_to_json ⟨[], ""⟩ = .error (ClientError.new "Failed to parse JSON: ") := rfl

/-- C2 amended: decoding a response with an empty body fails with the
DecodeError ("Failed to parse JSON: " plus the raw body), whatever the
headers; and autopagination also fails (rather than producing an empty-array
page) when the page it decodes has an empty body.  The empty-array convention
claimed by the spec is not implemented. -/
theorem empty_body_decode_fails :
    (∀ hs : List (String × String),
      response_to_json ⟨hs, ""⟩ = .error (ClientError.new "Failed to parse JSON: ")) ∧
    (∃ e, (autopagination ⟨⟨"https://h"⟩, none, ⟨none, none, [⟨[], ""⟩], []⟩⟩
            .get ⟨"https://h/x"⟩ none).1 = .error e) :=
  ⟨fun _ => rfl, ⟨ClientError.new "EOF while parsing a value", rfl⟩⟩

/-- C3: resolving an absolute target returns it unchanged and never consults the
base URI: the result is the same under any two bases. -/
theorem resolve_absolute_ignores_base (b1 b2 u : Uri) (h : u.isAbsolute = true) :
    resolveTarget b1 u = .ok u ∧ resolveTarget b1 u = resolveTarget b2 u := by
  constructor <;> simp [resolveTarget, h]

/-- Witness for C3 at concrete URIs with two distinct bases. -/
theorem resolve_absolute_ignores_base_witness :
    Uri.isAbsolute ⟨"https://h/x?page=3"⟩ = true ∧
    resolveTarget ⟨"https://b1/api"⟩ ⟨"https://h/x?page=3"⟩ = .ok ⟨"https://h/x?page=3"⟩ ∧
    resolveTarget ⟨"https://b1/api"⟩ ⟨"https://h/x?page=3"⟩ =
      resolveTarget ⟨"https://b2/other"⟩ ⟨"https://h/x?page=3"⟩ :=
  ⟨by decide,
   (resolve_absolute_ignores_base ⟨"https://b1/api"⟩ ⟨"https://b2/other"⟩
      ⟨"https://h/x?page=3"⟩ (by decide)).1,
   (resolve_absolute_ignores_base ⟨"https://b1/api"⟩ ⟨"https://b2/other"⟩
      ⟨"https://h/x?page=3"⟩ (by decide)).2⟩

/-- C4 counterexample: with base `https://h//` (two trailing separators, left
untouched, refuting "exactly one") and relative target `/` (empty after
stripping), resolution succeeds with the unchanged base instead of failing with
an InvalidTarget error. -/
theorem resolve_empty_relative_succeeds :
    resolveTarget ⟨"https://h//"⟩ ⟨"/"⟩ = .ok ⟨"https://h//"⟩ := rfl

/-- C4 amended: for a relative, nonempty target the resolver strips at most one
leading separator, appends a trailing separator to the base only if the base
lacks one (a base already ending in one or more separators is left as-is), and
concatenates; in particular a relative path that is empty after stripping
resolves successfully to the base itself (with its trailing separator), with no
InvalidTarget error. -/
theorem resolve_relative_concat (base t : Uri) (hb : base.raw ≠ "")
    (habs : t.isAbsolute = false) (_ht : t.raw ≠ "") :
    resolveTarget base t =
      .ok ⟨(if endsWith1 base.raw '/' then base.raw else base.raw ++ "/") ++
           (match t.raw.data with
            | '/' :: rest => (⟨rest⟩ : String)
            | _ => t.raw)⟩ ∧
    (t.raw = "/" →
      resolveTarget base t =
        .ok ⟨if endsWith1 base.raw '/' then base.raw else base.raw ++ "/"⟩) := by
  have hbase : (if endsWith1 base.raw '/' then base.raw else base.raw ++ "/") ≠ "" := by
    split
    · exact hb
    · exact string_append_ne_empty_left base.raw "/" hb
  have hmain : resolveTarget base t =
      .ok ⟨(if endsWith1 base.raw '/' then base.raw else base.raw ++ "/") ++
           (match t.raw.data with
            | '/' :: rest => (⟨rest⟩ : String)
            | _ => t.raw)⟩ := by
    unfold resolveTarget
    rw [if_neg (by simp [habs])]
    simp only [parseUri]
    rw [if_neg (string_append_ne_empty_left _ _ hbase)]
  refine ⟨hmain, fun hslash => ?_⟩
  rw [hmain]
  have : t.raw.data = ['/'] := by rw [hslash]
  simp [this]

/-- Witness for C4 (amended) reproducing the spec's own example:
`resolve("https://h/api", "/v1/items") = "https://h/api/v1/items"`. -/
theorem resolve_relative_concat_witness :
    Uri.isAbsolute ⟨"/v1/items"⟩ = false ∧
    resolveTarget ⟨"https://h/api"⟩ ⟨"/v1/items"⟩ = .ok ⟨"https://h/api/v1/items"⟩ := by
  refine ⟨by decide, ?_⟩
  have h := (resolve_relative_concat ⟨"https://h/api"⟩ ⟨"/v1/items"⟩
    (by decide) (by decide) (by decide)).1
  simpa using h

/-- C7 counterexample: on a client holding a personal-access token, a `NoAuth`
login is not a no-op — it changes the client state (the stored token is
cleared). -/
theorem noauth_login_not_noop :
    (GitlabClient.login ⟨⟨"https://h"⟩, some (.PersonalAccess "k"), ⟨none, none, [], []⟩⟩
        .NoAuth).2 ≠
      ⟨⟨"https://h"⟩, some (.PersonalAccess "k"), ⟨none, none, [], []⟩⟩ := by
  decide

/-- C7 amended: a `NoAuth` login on the Gitlab client issues no call into the
transport (script, log and pending request are all untouched) and always
returns success, but it resets the stored token to `None` instead of leaving
the state alone; the Sensu client's login is a true no-op that always
succeeds. -/
theorem noauth_login_no_network :
    (∀ st : GitlabClient,
      GitlabClient.login st .NoAuth = (.ok (), { st with token := none })) ∧
    (∀ (s : SensuClient) (c : ApiCredentials), SensuClient.login s c = (.ok (), s)) :=
  ⟨fun _ => rfl, fun _ _ => rfl⟩

/-- C8: a request invocation that returns an error leaves the stored session
token and the base URI exactly as they were before the call. -/
theorem failed_request_frame (st : GitlabClient) (m : Method) (u : Uri)
    (p : Option Value) (e : ClientError) (st' : GitlabClient)
    (h : ApiClient.request st m u p = (.error e, st')) :
    st'.token = st.token ∧ st'.baseUri = st.baseUri := by
  have hf := frame_of_request st m u p
  rw [h] at hf
  exact hf

/-- Witness for C8: a concrete request that fails (the transport round trip
errors because the network produces nothing) with token and base unchanged. -/
theorem failed_request_frame_witness :
    ApiClient.request ⟨⟨"https://h"⟩, none, ⟨none, none, [], []⟩⟩ .get ⟨"https://h/x"⟩ none
      = (.error (ClientError.new "transport round trip failed"),
         ⟨⟨"https://h"⟩, none, ⟨none, none, [], [(.get, "https://h/x")]⟩⟩) ∧
    (⟨⟨"https://h"⟩, none, ⟨none, none, [], [(.get, "https://h/x")]⟩⟩ : GitlabClient).token
      = (⟨⟨"https://h"⟩, none, ⟨none, none, [], []⟩⟩ : GitlabClient).token ∧
    (⟨⟨"https://h"⟩, none, ⟨none, none, [], [(.get, "https://h/x")]⟩⟩ : GitlabClient).baseUri
      = (⟨⟨"https://h"⟩, none, ⟨none, none, [], []⟩⟩ : GitlabClient).baseUri :=
  ⟨rfl,
   (failed_request_frame ⟨⟨"https://h"⟩, none, ⟨none, none, [], []⟩⟩ .get ⟨"https://h/x"⟩ none
      (ClientError.new "transport round trip failed")
      ⟨⟨"https://h"⟩, none, ⟨none, none, [], [(.get, "https://h/x")]⟩⟩ rfl).1,
   (failed_request_frame ⟨⟨"https://h"⟩, none, ⟨none, none, [], []⟩⟩ .get ⟨"https://h/x"⟩ none
      (ClientError.new "transport round trip failed")
      ⟨⟨"https://h"⟩, none, ⟨none, none, [], [(.get, "https://h/x")]⟩⟩ rfl).2⟩

/-- C9: `GitlabClient::login` reassigns the stored token on every completed
call: an `ApiKey` login stores a personal-access token, and a subsequent
`NoAuth` login succeeds and overwrites it with `None` (clearing the previously
stored token) rather than leaving it intact. -/
theorem login_reassigns_token (st : GitlabClient) (k : String) :
    (GitlabClient.login st (.ApiKey k)).2.token = some (.PersonalAccess k) ∧
    GitlabClient.login (GitlabClient.login st (.ApiKey k)).2 .NoAuth =
      (.ok (), { (GitlabClient.login st (.ApiKey k)).2 with token := none }) ∧
    (GitlabClient.login (GitlabClient.login st (.ApiKey k)).2 .NoAuth).2.token = none :=
  ⟨rfl, rfl, rfl⟩

/-- Truncating `cs ++ ['\n']` at the byte length of `cs` keeps exactly `cs`:
every character occupies at least one byte, so the newline is the sole casualty. -/
theorem truncBytes_strip_newline (cs : List Char) :
    truncBytes (cs ++ ['\n']) (utf8LenAux cs) = some cs := by
  induction cs with
  | nil => rfl
  | cons c cs ih =>
    have hk : ∃ k', c.utf8Size + utf8LenAux cs = k' + 1 := by
      have := Char.utf8Size_pos c
      exact ⟨c.utf8Size + utf8LenAux cs - 1, by omega⟩
    obtain ⟨k', hk⟩ := hk
    simp only [utf8LenAux, List.cons_append, hk, truncBytes]
    rw [if_pos (by omega)]
    have hsub : k' + 1 - c.utf8Size = utf8LenAux cs := by omega
    rw [hsub, ih]
    rfl

theorem utf8LenAux_append (xs ys : List Char) :
    utf8LenAux (xs ++ ys) = utf8LenAux xs + utf8LenAux ys := by
  induction xs with
  | nil => simp [utf8LenAux]
  | cons c cs ih =>
    show c.utf8Size + utf8LenAux (cs ++ ys) = c.utf8Size + utf8LenAux cs + utf8LenAux ys
    rw [ih]
    omega

/-- C10: `interactive_text` is not total: end-of-file before any newline makes
`read_line` return `0`, so `line_len - 1` underflows and the call panics
(checked `usize` arithmetic) instead of using the `io::Error` branch; and for
every line that does end with a newline, exactly the one trailing newline
character is removed from the returned text. -/
theorem interactive_text_eof_panics :
    interactive_text (.input "" false) = .panicked ∧
    (∀ s : String, interactive_text (.input s true) = .ok s) := by
  refine ⟨rfl, fun s => ?_⟩
  have hdata : (s ++ "\n").data = s.data ++ ['\n'] := by
    rw [String.data_append]
  have hlen : utf8LenAux (s ++ "\n").data = utf8LenAux s.data + 1 := by
    rw [hdata, utf8LenAux_append]
    rfl
  change
    (if utf8LenAux (s ++ "\n").data = 0 then PromptResult.panicked
     else
       match truncBytes (s ++ "\n").data (utf8LenAux (s ++ "\n").data - 1) with
       | none => PromptResult.panicked
       | some cs => PromptResult.ok ⟨cs⟩) = PromptResult.ok s
  rw [hlen, if_neg (Nat.succ_ne_zero _), Nat.add_sub_cancel, hdata,
    truncBytes_strip_newline]

/-! ## Canonical Link-header rendering (for the C5 statement)

A well-formed header value is quantified through its canonical rendered form
`<url>; rel="name"` entries joined by `", "`, the shape the grammar of §4.1
describes and the one Gitlab emits.  `GoodRel`/`GoodUrl` exclude exactly the
texts that could not appear in a well-formed entry: a quote inside a relation
name or the sequence `>;` inside a URL would end the entry early, and leading
whitespace is indistinguishable from token-boundary whitespace. -/

def entryStr (rel url : String) : String :=
  "<" ++ url ++ ">; rel=\x22" ++ rel ++ "\x22"

def tailStr : List (String × String) → String
  | [] => ""
  | e :: es => ", " ++ entryStr e.1 e.2 ++ tailStr es

/-- The canonical header value for a list of `(relation, url)` entries. -/
def renderEntries : List (String × String) → String
  | [] => ""
  | e :: es => entryStr e.1 e.2 ++ tailStr es

/-- The mapping the fold builds: successive `HashMap::insert`s. -/
def buildMap (es : List (String × String)) : List (String × String) :=
  es.foldl (fun m e => insertAssoc m e.1 e.2) []

def GoodRel (rel : String) : Prop :=
  containsSeq ['\x22'] rel.data = false ∧ headOk rel.data = true

def GoodUrl (url : String) : Prop :=
  containsSeq ['>', ';'] url.data = false ∧ headOk url.data = true

instance (rel : String) : Decidable (GoodRel rel) := by unfold GoodRel; infer_instance

instance (url : String) : Decidable (GoodUrl url) := by unfold GoodUrl; infer_instance

/-! ### Lemmas about the nom combinators on rendered input -/

theorem sp_noop (cs : List Char) (h : headOk cs = true) : sp cs = cs := by
  cases cs with
  | nil => rfl
  | cons c cs =>
    simp only [headOk, Bool.not_eq_true'] at h
    simp [sp, List.dropWhile, h]

theorem headOk_append (xs ys : List Char) (hx : headOk xs = true)
    (hy : headOk ys = true) : headOk (xs ++ ys) = true := by
  cases xs with
  | nil => simpa using hy
  | cons c cs => simpa [headOk] using hx

theorem takeUntil_pair (a b : Char) (hab : a ≠ b) (u r : List Char)
    (h : containsSeq [a, b] u = false) :
    takeUntil [a, b] (u ++ a :: b :: r) = .done (a :: b :: r) u := by
  induction u with
  | nil =>
    simp [takeUntil, isPrefixB]
  | cons c u ih =>
    rw [containsSeq, Bool.or_eq_false_iff] at h
    have hpre : isPrefixB [a, b] (c :: (u ++ a :: b :: r)) = false := by
      cases u with
      | nil =>
        have hba : (b == a) = false := by
          simp only [beq_eq_false_iff_ne, ne_eq]
          exact fun hh => hab hh.symm
        simp [isPrefixB, hba]
      | cons d u' =>
        have h1 := h.1
        simp only [isPrefixB, Bool.and_eq_false_iff] at h1 ⊢
        rcases h1 with h1 | h1
        · exact Or.inl h1
        · rcases h1 with h1 | h1
          · exact Or.inr (Or.inl h1)
          · cases h1
    rw [List.cons_append, takeUntil, if_neg (by simp [hpre]), ih h.2]

theorem takeUntil_singleton (a : Char) (u r : List Char)
    (h : containsSeq [a] u = false) :
    takeUntil [a] (u ++ a :: r) = .done (a :: r) u := by
  induction u with
  | nil => simp [takeUntil, isPrefixB]
  | cons c u ih =>
    rw [containsSeq, Bool.or_eq_false_iff] at h
    have hpre : isPrefixB [a] (c :: (u ++ a :: r)) = false := by
      have h1 := h.1
      simp only [isPrefixB, Bool.and_eq_false_iff] at h1 ⊢
      rcases h1 with h1 | h1
      · exact Or.inl h1
      · cases h1
    rw [List.cons_append, takeUntil, if_neg (by simp [hpre]), ih h.2]

theorem tagP_self (pat rest : List Char) :
    tagP pat (pat ++ rest) = .done rest () := by
  have hpre : ∀ ps rs : List Char, isPrefixB ps (ps ++ rs) = true := by
    intro ps rs
    induction ps with
    | nil => rfl
    | cons p ps ih => simp [isPrefixB, ih]
  rw [tagP, if_pos (hpre pat rest)]
  congr 1
  rw [List.drop_append_of_le_length (Nat.le_refl _)]
  simp

/-- The rendered entry, as a character list, in head-normal shape. -/
theorem entryStr_data (rel url : String) (tail : List Char) :
    (entryStr rel url).data ++ tail =
      '<' :: (url.data ++ '>' :: ';' ::
        (' ' :: ('r' :: 'e' :: 'l' :: '=' :: '\x22' :: (rel.data ++ '\x22' :: tail)))) := by
  simp [entryStr, String.data_append]

theorem sp_cons_of_not_ws (c : Char) (cs : List Char) (hc : isWsChar c = false) :
    sp (c :: cs) = c :: cs := by
  simp [sp, List.dropWhile, hc]

theorem sp_cons_space (cs : List Char) : sp (' ' :: cs) = sp cs := by
  simp [sp, List.dropWhile, isWsChar]

theorem tagP_cons (a : Char) (X : List Char) : tagP [a] (a :: X) = .done X () :=
  tagP_self [a] X

theorem tagP_gtsemi (X : List Char) :
    tagP ['>', ';'] ('>' :: ';' :: X) = .done X () :=
  tagP_self ['>', ';'] X

theorem tagP_relquote (X : List Char) :
    tagP ("rel=\x22".data) ('r' :: 'e' :: 'l' :: '=' :: '\x22' :: X) = .done X () :=
  tagP_self ("rel=\x22".data) X

theorem entryBody_render (rel url : String) (tail : List Char)
    (hr : GoodRel rel) (hu : GoodUrl url) :
    entryBody ((entryStr rel url).data ++ tail) = .done tail (rel, url) := by
  rw [entryBody, entryStr_data]
  rw [sp_cons_of_not_ws '<' _ (by decide)]
  rw [tagP_cons '<' _, pbind_done]
  rw [sp_noop _ (headOk_append _ _ hu.2 (by rfl))]
  rw [takeUntil_pair '>' ';' (by decide) url.data _ hu.1, pbind_done]
  rw [sp_cons_of_not_ws '>' _ (by decide)]
  rw [tagP_gtsemi _, pbind_done]
  rw [sp_cons_space, sp_cons_of_not_ws 'r' _ (by decide)]
  rw [tagP_relquote _, pbind_done]
  rw [sp_noop _ (headOk_append _ _ hr.2 (by rfl))]
  rw [takeUntil_singleton '\x22' rel.data _ hr.1, pbind_done]
  rw [sp_cons_of_not_ws '\x22' _ (by decide)]
  rw [tagP_cons '\x22' _, pbind_done]

theorem linkEntry_render (rel url : String) (tail : List Char)
    (hr : GoodRel rel) (hu : GoodUrl url) :
    linkEntry ((entryStr rel url).data ++ tail) = .done tail (rel, url) := by
  rw [linkEntry, entryStr_data]
  rw [sp_cons_of_not_ws '<' _ (by decide)]
  rw [show tagP [','] ('<' :: (url.data ++ '>' :: ';' ::
      (' ' :: ('r' :: 'e' :: 'l' :: '=' :: '\x22' :: (rel.data ++ '\x22' :: tail))))) =
      .error by simp [tagP, isPrefixB]]
  show entryBody ('<' :: (url.data ++ '>' :: ';' ::
      (' ' :: ('r' :: 'e' :: 'l' :: '=' :: '\x22' :: (rel.data ++ '\x22' :: tail))))) =
    .done tail (rel, url)
  rw [← entryStr_data]
  exact entryBody_render rel url tail hr hu

/-- `entryBody` ignores a leading blank (the `ws!` separator eats it). -/
theorem entryBody_cons_space (cs : List Char) : entryBody (' ' :: cs) = entryBody cs := by
  rw [entryBody, entryBody, sp_cons_space]

theorem linkEntry_render_sep (rel url : String) (tail : List Char)
    (hr : GoodRel rel) (hu : GoodUrl url) :
    linkEntry ((", " ++ entryStr rel url).data ++ tail) = .done tail (rel, url) := by
  have hd : (", " ++ entryStr rel url).data ++ tail =
      ',' :: ' ' :: ((entryStr rel url).data ++ tail) := by
    simp [String.data_append]
  rw [hd, linkEntry]
  rw [sp_cons_of_not_ws ',' _ (by decide)]
  rw [tagP_cons ',' _]
  show entryBody (' ' :: ((entryStr rel url).data ++ tail)) = .done tail (rel, url)
  rw [entryBody_cons_space]
  exact entryBody_render rel url tail hr hu

/-- Length of a rendered separator-prefixed entry, for the fold's
consumption check. -/
theorem tailStr_cons_data (e : String × String) (es : List (String × String)) :
    (tailStr (e :: es)).data =
      (", " ++ entryStr e.1 e.2).data ++ (tailStr es).data := by
  simp [tailStr, String.data_append]

/-- `fold_many0!` consumes the whole rendered tail and folds every entry into
the map, in order. -/
theorem foldEntries_tailStr (es : List (String × String)) :
    ∀ (fuel : Nat) (acc : List (String × String)),
      (tailStr es).data.length < fuel →
      (∀ e ∈ es, GoodRel e.1 ∧ GoodUrl e.2) →
      foldEntries fuel (tailStr es).data acc =
        .done [] (es.foldl (fun m e => insertAssoc m e.1 e.2) acc) := by
  induction es with
  | nil =>
    intro fuel acc hfuel _
    match fuel, hfuel with
    | fuel + 1, _ => rfl
  | cons e es ih =>
    intro fuel acc hfuel hgood
    have hglen : 2 ≤ ((", " ++ entryStr e.1 e.2).data).length := by
      simp [String.data_append]
    match fuel, hfuel with
    | fuel + 1, hfuel =>
      rw [foldEntries]
      rw [tailStr_cons_data]
      have hne : ((", " ++ entryStr e.1 e.2).data ++ (tailStr es).data) ≠ [] := by
        intro hc
        rcases List.append_eq_nil.mp hc with ⟨h1, _⟩
        rw [h1] at hglen
        simp at hglen
      rw [if_neg hne]
      rw [linkEntry_render_sep e.1 e.2 (tailStr es).data (hgood e (by simp)).1
        (hgood e (by simp)).2]
      show (if (tailStr es).data.length =
            ((", " ++ entryStr e.1 e.2).data ++ (tailStr es).data).length then
          (PRes.error : PRes (List (String × String)))
        else foldEntries fuel (tailStr es).data (insertAssoc acc e.1 e.2)) =
        .done [] (List.foldl (fun m e => insertAssoc m e.1 e.2) acc (e :: es))
      rw [if_neg (by rw [List.length_append]; omega)]
      have hfuel' : (tailStr es).data.length < fuel := by
        rw [tailStr_cons_data, List.length_append] at hfuel
        omega
      rw [ih fuel (insertAssoc acc e.1 e.2) hfuel'
        (fun x hx => hgood x (List.mem_cons_of_mem e hx))]
      rfl

theorem lookupAssoc_insert (m : List (String × String)) (k v k' : String) :
    lookupAssoc (insertAssoc m k v) k' =
      if k = k' then some v else lookupAssoc m k' := by
  induction m with
  | nil => rfl
  | cons p t ih =>
    rcases p with ⟨pk, pv⟩
    by_cases hpk : pk = k
    · rw [insertAssoc, if_pos hpk, lookupAssoc]
      by_cases hkk : k = k'
      · rw [if_pos hkk, if_pos hkk]
      · rw [if_neg hkk, if_neg hkk, lookupAssoc, if_neg (by rw [hpk]; exact hkk)]
    · rw [insertAssoc, if_neg hpk, lookupAssoc, ih, lookupAssoc]
      by_cases hpk' : pk = k'
      · have hkk : ¬ k = k' := fun hc => hpk (by rw [hc, hpk'])
        rw [if_pos hpk', if_neg hkk, if_pos hpk']
      · rw [if_neg hpk', if_neg hpk']

theorem find?_append_pairs (l₁ l₂ : List (String × String)) (p : String × String → Bool) :
    (l₁ ++ l₂).find? p =
      match l₁.find? p with
      | some x => some x
      | none => l₂.find? p := by
  induction l₁ with
  | nil => rfl
  | cons x l₁ ih =>
    by_cases hx : p x = true
    · rw [List.cons_append, List.find?_cons_of_pos _ hx, List.find?_cons_of_pos _ hx]
    · rw [List.cons_append, List.find?_cons_of_neg _ hx, List.find?_cons_of_neg _ hx, ih]

/-- Looking a relation up in the folded map gives the value of the **last**
occurrence among the inserted entries, and falls back to the accumulator. -/
theorem lookup_foldl_insert (es : List (String × String)) :
    ∀ (acc : List (String × String)) (k : String),
      lookupAssoc (es.foldl (fun m e => insertAssoc m e.1 e.2) acc) k =
        match es.reverse.find? (fun e => e.1 = k) with
        | some e => some e.2
        | none => lookupAssoc acc k := by
  induction es with
  | nil => intro acc k; rfl
  | cons e es ih =>
    intro acc k
    rw [List.foldl_cons, ih]
    rw [show (e :: es).reverse = es.reverse ++ [e] by simp]
    rw [find?_append_pairs]
    rcases hfind : es.reverse.find? (fun x => x.1 = k) with _ | x <;> rw [hfind]
    · rw [lookupAssoc_insert]
      rcases hek : (decide (e.1 = k)) with _ | _
      · simp only [List.find?, hek]
        simp only [decide_eq_false_iff_not] at hek
        rw [if_neg (fun hc => hek hc)]
      · simp only [List.find?, hek]
        simp only [decide_eq_true_eq] at hek
        rw [if_pos hek]

theorem string_append_ne_empty_right (s t : String) (h : t ≠ "") : s ++ t ≠ "" := by
  intro heq
  apply h
  have hd : s.data ++ t.data = [] := by
    have := congrArg String.data heq
    simpa [String.data_append] using this
  have : t.data = [] := (List.append_eq_nil.mp hd).2
  cases t
  simp_all

/-- A request to an absolute target, when the transport has a next scripted
response: the target is dispatched verbatim (logged), the scripted response is
returned, and the pending request and future are consumed. -/
theorem request_abs_cons (b : Uri) (tok : Option TokenType)
    (req fut : Option HttpRequest) (r : Response) (rest : List Response)
    (log : List (Method × String)) (m : Method) (u : Uri) (params : Option Value)
    (habs : u.isAbsolute = true) :
    ApiClient.request ⟨b, tok, ⟨req, fut, r :: rest, log⟩⟩ m u params =
      (.ok r, ⟨b, tok, ⟨none, none, rest, log ++ [(m, u.raw)]⟩⟩) := by
  unfold ApiClient.request
  rw [show resolveTarget b u = .ok u by simp [resolveTarget, habs]]
  rcases params with _ | p <;> rcases tok with _ | t <;> (try rcases t with t | t) <;>
    simp [SimpleHttpClient.requestInit, GitlabClient.setRequestAttributes,
      GitlabClient.setApiHeaders, SimpleHttpClient.makeRequest,
      SimpleHttpClient.response]

/-- C6: a `UserPass` login whose nested token request succeeds at the transport
level (a response is produced) and whose body decodes to JSON that lacks
`access_token` fails with the AuthError
("Could not log in with given username and password"), leaving the stored
token untouched — and that error is distinct from the DecodeError
("Failed to parse JSON: " + body) that a malformed body would have produced. -/
theorem login_missing_token_is_auth_error (base : Uri) (sch au : String)
    (tok : Option TokenType) (req fut : Option HttpRequest)
    (hdrs : List (String × String)) (B : String) (rest : List Response)
    (log : List (Method × String)) (u p : String) (v : Value)
    (hsch : base.scheme = some sch) (hau : base.authority = some au)
    (hhost : endsWith1 (sch ++ "://" ++ au) '/' = false)
    (habs : Uri.isAbsolute ⟨sch ++ "://" ++ au ++ "/oauth/token"⟩ = true)
    (hb : parseJson B = .ok v) (hv : v.get "access_token" = none) :
    GitlabClient.login ⟨base, tok, ⟨req, fut, ⟨hdrs, B⟩ :: rest, log⟩⟩ (.UserPass u p) =
      (.error (ClientError.new "Could not log in with given username and password"),
       ⟨base, tok, ⟨none, none, rest,
         log ++ [(.post, sch ++ "://" ++ au ++ "/oauth/token")]⟩⟩) ∧
    ClientError.new "Could not log in with given username and password" ≠
      ClientError.new ("Failed to parse JSON: " ++ B) := by
  constructor
  · unfold GitlabClient.login gitlabAuth
    simp only [hsch, hau]
    rw [hhost]
    simp only [Bool.false_eq_true, if_false, parseUri]
    rw [if_neg (string_append_ne_empty_right _ _ (by decide))]
    simp only [request_json]
    rw [request_abs_cons base tok req fut ⟨hdrs, B⟩ rest log .post
      ⟨sch ++ "://" ++ au ++ "/oauth/token"⟩ _ habs]
    simp only [response_to_json, response_to_body]
    rw [hb]
    simp only [hv]
  · intro hc
    have h2 : ("Could not log in with given username and password" : String).data.head? =
        ("Failed to parse JSON: " ++ B : String).data.head? := by
      have hm := congrArg (fun c : ClientError => c.msg.data.head?) hc
      simp only [ClientError.new] at hm
      exact hm
    rw [String.data_append] at h2
    rw [show (("Failed to parse JSON: " : String).data ++ B.data).head? = some 'F'
      from rfl] at h2
    rw [show ("Could not log in with given username and password" : String).data.head? =
        some 'C' from rfl] at h2
    simp at h2

/-- Witness for C6: a login against a server returning `\x7b\x7d` (an empty
JSON object, so the transport and decoding both succeed) fails with the
AuthError, and the token survives untouched. -/
theorem login_missing_token_is_auth_error_witness :
    parseJson "\x7b\x7d" = .ok (.obj .nil) ∧
    (Value.obj .nil).get "access_token" = none ∧
    GitlabClient.login ⟨⟨"https://gl.example"⟩, some (.PersonalAccess "old"),
        ⟨none, none, [⟨[], "\x7b\x7d"⟩], []⟩⟩ (.UserPass "u" "p") =
      (.error (ClientError.new "Could not log in with given username and password"),
       ⟨⟨"https://gl.example"⟩, some (.PersonalAccess "old"),
        ⟨none, none, [],
          [(.post, "https" ++ "://" ++ "gl.example" ++ "/oauth/token")]⟩⟩) := by
  refine ⟨rfl, rfl, ?_⟩
  exact (login_missing_token_is_auth_error ⟨"https://gl.example"⟩ "https" "gl.example"
    (some (.PersonalAccess "old")) none none [] "\x7b\x7d" [] [] "u" "p" (.obj .nil)
    (by rfl) (by rfl) (by rfl) (by rfl) rfl rfl).1

/-- C5: parsing a canonical well-formed Link header value always succeeds — in
particular duplicate relation names are never rejected — and the resulting
mapping binds each relation name to the URL of its **last** occurrence in the
input (later entries overwrite earlier ones in the `HashMap`). -/
theorem link_header_last_occurrence_wins (es : List (String × String))
    (hne : es ≠ [])
    (hgood : ∀ e ∈ es, GoodRel e.1 ∧ GoodUrl e.2) :
    parse_link_header (renderEntries es) = .done [] (buildMap es) ∧
    ∀ rel, lookupAssoc (buildMap es) rel =
      (es.reverse.find? (fun e => e.1 = rel)).map Prod.snd := by
  constructor
  · match es, hne with
    | e :: es, _ =>
      rw [parse_link_header]
      have hdata : (renderEntries (e :: es)).data =
          (entryStr e.1 e.2).data ++ (tailStr es).data := by
        simp [renderEntries, String.data_append]
      rw [hdata]
      rw [linkEntry_render e.1 e.2 (tailStr es).data (hgood e (by simp)).1
        (hgood e (by simp)).2]
      show foldEntries ((tailStr es).data.length + 1) (tailStr es).data
          (insertAssoc [] e.1 e.2) = .done [] (buildMap (e :: es))
      rw [foldEntries_tailStr es ((tailStr es).data.length + 1) _
        (Nat.lt_succ_self _)
        (fun x hx => hgood x (List.mem_cons_of_mem e hx))]
      rfl
  · intro rel
    rw [buildMap, lookup_foldl_insert]
    rcases hfind : es.reverse.find? (fun e => e.1 = rel) with _ | x <;> rw [hfind] <;> rfl

/-- Witness for C5: two entries with the same relation name `next`; parsing
succeeds and the mapping holds the second (last) URL. -/
theorem link_header_last_occurrence_wins_witness :
    ([("next", "https://h/a"), ("next", "https://h/b")] ≠
        ([] : List (String × String))) ∧
    (∀ e ∈ [("next", "https://h/a"), ("next", "https://h/b")],
        GoodRel e.1 ∧ GoodUrl e.2) ∧
    parse_link_header
        (renderEntries [("next", "https://h/a"), ("next", "https://h/b")]) =
      .done [] (buildMap [("next", "https://h/a"), ("next", "https://h/b")]) ∧
    lookupAssoc (buildMap [("next", "https://h/a"), ("next", "https://h/b")]) "next" =
      some "https://h/b" := by
  refine ⟨by decide, by decide, ?_, ?_⟩
  · exact (link_header_last_occurrence_wins
      [("next", "https://h/a"), ("next", "https://h/b")] (by decide) (by decide)).1
  · have h := (link_header_last_occurrence_wins
      [("next", "https://h/a"), ("next", "https://h/b")] (by decide) (by decide)).2 "next"
    rw [h]
    rfl

/-! ## Synthetic paginated scripts (for C1)

A mid-sequence page declares its continuation in a `Link` header with the
`next` relation; the last page has no `Link` header.  `GoodLink` is what the
claim's "server-declared traversal order" presupposes of continuation URLs:
nonempty, absolute (pagination URLs are fully qualified), and representable in
a well-formed header entry. -/

structure MidPage where
  body : String
  value : Value
  next : String

structure LastPage where
  body : String
  value : Value

def GoodLink (l : String) : Prop :=
  l ≠ "" ∧ Uri.isAbsolute ⟨l⟩ = true ∧ GoodUrl l

instance (l : String) : Decidable (GoodLink l) := by unfold GoodLink; infer_instance

def midResponse (p : MidPage) : Response :=
  ⟨[("Link", entryStr "next" p.next)], p.body⟩

def lastResponse (lp : LastPage) : Response := ⟨[], lp.body⟩

/-- The whole scripted response sequence for the synthetic pagination run. -/
def pagScript (ps : List MidPage) (lp : LastPage) : List Response :=
  ps.map midResponse ++ [lastResponse lp]

def headResponse : List MidPage → LastPage → Response
  | [], lp => lastResponse lp
  | p :: _, _ => midResponse p

def tailScript : List MidPage → LastPage → List Response
  | [], _ => []
  | _ :: t, lp => pagScript t lp

theorem pagScript_cons_eq (ps : List MidPage) (lp : LastPage) :
    pagScript ps lp = headResponse ps lp :: tailScript ps lp := by
  cases ps <;> rfl

theorem tailScript_length (ps : List MidPage) (lp : LastPage) :
    (tailScript ps lp).length = ps.length := by
  cases ps with
  | nil => rfl
  | cons p t => simp [tailScript, pagScript]

/-- A synthetic mid page's `Link` header parses back to exactly its `next`
continuation URI. -/
theorem nextPageUri_mid (p : MidPage) (h : GoodLink p.next) :
    nextPageUri (midResponse p) = some ⟨p.next⟩ := by
  have hparse : parse_link_header (entryStr "next" p.next) =
      .done [] [("next", p.next)] := by
    rw [parse_link_header]
    rw [show (entryStr "next" p.next).data = (entryStr "next" p.next).data ++ []
      from (List.append_nil _).symm]
    rw [linkEntry_render "next" p.next [] (by decide) h.2.2]
    rfl
  have hlink : Link.parse_header (entryStr "next" p.next) =
      some ⟨none, some p.next, none, none⟩ := by
    rw [Link.parse_header, hparse]
    rfl
  have hget : getLinkHeader (midResponse p).headers =
      some ⟨none, some p.next, none, none⟩ := hlink
  rw [nextPageUri]
  simp only [hget]
  rw [parseUri, if_neg h.1]
  rfl

/-- The autopagination loop over a synthetic paginated script: holding the
response for the head page with the remaining pages scripted, it decodes every
page in order, issues exactly one request per declared continuation (appended
to the log in continuation order), and accumulates the decoded values. -/
theorem autopagLoop_spec (m : Method) (params : Option Value) (lp : LastPage) :
    ∀ (ps : List MidPage) (fuel : Nat) (b : Uri) (tok : Option TokenType)
      (log : List (Method × String)) (acc : List Value),
      ps.length < fuel →
      (∀ p ∈ ps, parseJson p.body = .ok p.value ∧ GoodLink p.next) →
      parseJson lp.body = .ok lp.value →
      autopagLoop m params fuel ⟨b, tok, ⟨none, none, tailScript ps lp, log⟩⟩
          (headResponse ps lp) acc =
        (.ok (acc ++ (ps.map (fun p => p.value) ++ [lp.value])),
         ⟨b, tok, ⟨none, none, [], log ++ ps.map (fun p => (m, p.next))⟩⟩) := by
  intro ps
  induction ps with
  | nil =>
    intro fuel b tok log acc hfuel hgood hlast
    match fuel, hfuel with
    | fuel + 1, _ =>
      show ((match parseJson lp.body with
        | .error e => (.error (ClientError.new e),
            (⟨b, tok, ⟨none, none, [], log⟩⟩ : GitlabClient))
        | .ok json => (.ok (acc ++ [json]), ⟨b, tok, ⟨none, none, [], log⟩⟩)) :
          Except ClientError (List Value) × GitlabClient) = _
      rw [hlast]
      simp
  | cons p ps ih =>
    intro fuel b tok log acc hfuel hgood hlast
    match fuel, hfuel with
    | fuel + 1, hfuel =>
      have hp := hgood p (by simp)
      have hnext := nextPageUri_mid p hp.2
      have hjson : response_to_json (midResponse p) = .ok p.value := by
        rw [response_to_json]
        show (match parseJson p.body with
          | .ok v => (.ok v : Except ClientError Value)
          | .error _ => .error (ClientError.new ("Failed to parse JSON: " ++
              response_to_body (midResponse p)))) = .ok p.value
        rw [hp.1]
      have hreq := request_abs_cons b tok none none (headResponse ps lp)
        (tailScript ps lp) log m ⟨p.next⟩ params hp.2.2.1
      rw [show tailScript (p :: ps) lp = headResponse ps lp :: tailScript ps lp
        from pagScript_cons_eq ps lp]
      simp only [autopagLoop, show headResponse (p :: ps) lp = midResponse p from rfl,
        hnext, hjson, hreq]
      rw [ih fuel b tok (log ++ [(m, p.next)]) (acc ++ [p.value])
        (by simp only [List.length_cons] at hfuel; omega)
        (fun x hx => hgood x (List.mem_cons_of_mem p hx)) hlast]
      simp

/-- C1: over any synthetic sequence of `N` pages — every page except the last
declaring its continuation through a `Link: <...>; rel="next"` header —
autopagination issues the requests strictly one at a time (each round trip
consumes exactly the next scripted response, and the log records the initial
target followed by the continuations, in server-declared traversal order) and
returns exactly the `N` decoded JSON payloads, in that same order, wrapped in
one array. -/
theorem autopagination_in_order (ps : List MidPage) (lp : LastPage) (b : Uri)
    (tok : Option TokenType) (req fut : Option HttpRequest)
    (log : List (Method × String)) (m : Method) (params : Option Value)
    (target : Uri) (htarget : target.isAbsolute = true)
    (hgood : ∀ p ∈ ps, parseJson p.body = .ok p.value ∧ GoodLink p.next)
    (hlast : parseJson lp.body = .ok lp.value) :
    autopagination ⟨b, tok, ⟨req, fut, pagScript ps lp, log⟩⟩ m target params =
      (.ok (.arr (ValueList.ofList (ps.map (fun p => p.value) ++ [lp.value]))),
       ⟨b, tok, ⟨none, none, [],
         (log ++ [(m, target.raw)]) ++ ps.map (fun p => (m, p.next))⟩⟩) := by
  rw [autopagination, pagScript_cons_eq]
  rw [request_abs_cons b tok req fut (headResponse ps lp) (tailScript ps lp) log m
    target params htarget]
  show ((match autopagLoop m params ((tailScript ps lp).length + 1)
      ⟨b, tok, ⟨none, none, tailScript ps lp, log ++ [(m, target.raw)]⟩⟩
      (headResponse ps lp) [] with
    | (.error e, st'') => (.error e, st'')
    | (.ok vec, st'') => (.ok (.arr (ValueList.ofList vec)), st'')) :
      Except ClientError Value × GitlabClient) = _
  rw [autopagLoop_spec m params lp ps ((tailScript ps lp).length + 1) b tok
    (log ++ [(m, target.raw)]) []
    (by rw [tailScript_length]; exact Nat.lt_succ_self _) hgood hlast]
  rfl

/-- Witness for C1: two pages (bodies `1` then `2`, the first declaring
`https://h/p2` as its continuation); autopagination returns `[1,2]` and the
log shows the two requests in traversal order. -/
theorem autopagination_in_order_witness :
    Uri.isAbsolute ⟨"https://h/p1"⟩ = true ∧
    parseJson "1" = .ok (.num "1") ∧ GoodLink "https://h/p2" ∧
    parseJson "2" = .ok (.num "2") ∧
    autopagination
        ⟨⟨"https://h"⟩, none, ⟨none, none,
          pagScript [⟨"1", .num "1", "https://h/p2"⟩] ⟨"2", .num "2"⟩, []⟩⟩
        .get ⟨"https://h/p1"⟩ none =
      (.ok (.arr (ValueList.ofList [.num "1", .num "2"])),
       ⟨⟨"https://h"⟩, none, ⟨none, none, [],
         [(.get, "https://h/p1"), (.get, "https://h/p2")]⟩⟩) := by
  refine ⟨by decide, rfl, by decide, rfl, ?_⟩
  have h := autopagination_in_order [⟨"1", .num "1", "https://h/p2"⟩] ⟨"2", .num "2"⟩
    ⟨"https://h"⟩ none none none [] .get none ⟨"https://h/p1"⟩ (by decide)
    (by
      intro x hx
      simp only [List.mem_singleton] at hx
      subst hx
      exact ⟨rfl, by decide⟩) rfl
  simpa using h

end Teatime
